import Mathlib

/-!
Verification of the RetroShield Z80 emulator host code.

This file gives a shallow embedding of the host-side code of the emulator
(src/retroshield.c, with the input ring buffer shared by
src/retroshield_nc.c and src/retroshield_tui.c, and the instruction-length
computation of src/z80_disasm.c) and proves properties of the embedded
definitions.

Modelling conventions:
- C integer types are modelled by Nat with explicit reductions: a uint8_t
  parameter is reduced by percent 256 at function entry, a uint16_t memory
  address by percent 65536.
- The host stdin stream is modelled as the list of bytes it will deliver;
  select/kbhit reports input available iff that list is nonempty, and
  getchar dequeues the head.  The EOF branch of the C code corresponds to
  the exhausted stream, which kbhit already excludes, so it never fires in
  the model.
- The filesystem calls made by the SD-card peripheral (fopen, opendir) are
  modelled by an environment record that fixes, for one call, whether the
  open succeeds and with which contents.  A C FILE handle is a pair of the
  byte contents and a read/write position; a DIR handle is the list of the
  remaining directory entries, each entry the bytes of its name.
- The z80 CPU core itself (z80.h, the superzazu z80 library) is an external
  dependency, not part of this repository; the host main-loop interrupt
  policy is therefore modelled as a function of the per-iteration
  observations of the CPU (iff1, iff_delay) and of kbhit.
-/

/-- An open SD file handle: the byte contents of the underlying file and
the current stream position (the C FILE cursor). -/
structure SdFile where
  data : List Nat
  pos : Nat
deriving DecidableEq

/-- Results of the filesystem calls a single port_out command may make:
for each kind of fopen, none means the open fails, some gives the bytes of
the opened file; dirEntries gives the entries opendir/readdir will deliver
(in order), or none when opendir fails. -/
structure SdEnv where
  openRead : Option (List Nat)
  create : Bool
  openAppend : Option (List Nat)
  openRW : Option (List Nat)
  dirEntries : Option (List (List Nat))

/-- The host-visible state of src/retroshield.c: the 64 KiB memory and the
protected ROM size, the stdin/stdout streams, the ACIA control byte, the
uses_8251 flag, and the SD-card peripheral state (filename buffer and
cursor, open file, status byte, open directory iterator with its current
entry buffer and cursor, and the 16-bit seek register). -/
structure RSState where
  memory : Nat → Nat
  romSize : Nat
  stdin : List Nat
  stdout : List Nat
  aciaControl : Nat
  uses8251 : Bool
  sdFilename : Nat → Nat
  sdFilenamePos : Nat
  sdFile : Option SdFile
  sdStatus : Nat
  sdDir : Option (List (List Nat))
  sdDirEntry : List Nat
  sdDirEntryPos : Nat
  sdSeekPos : Nat

/-- Initial state: all statics zero-initialized as in the C file, rom_size
defaulting to 0x2000, sd_status = SD_STATUS_READY. -/
def initState : RSState where
  memory := fun _ => 0
  romSize := 0x2000
  stdin := []
  stdout := []
  aciaControl := 0
  uses8251 := false
  sdFilename := fun _ => 0
  sdFilenamePos := 0
  sdFile := none
  sdStatus := 1
  sdDir := none
  sdDirEntry := []
  sdDirEntryPos := 0
  sdSeekPos := 0

/-- kbhit: input is available on stdin (select reports readable). -/
def kbhit (s : RSState) : Bool := !s.stdin.isEmpty

/-- mem_read of src/retroshield.c: reads are unconditional. -/
def mem_read (s : RSState) (addr : Nat) : Nat :=
  s.memory (addr % 65536)

/-- mem_write of src/retroshield.c: the ROM area below rom_size is
protected, writes there are dropped. -/
def mem_write (s : RSState) (addr val : Nat) : RSState :=
  if addr % 65536 ≥ s.romSize then
    { s with memory := Function.update s.memory (addr % 65536) (val % 256) }
  else s

/-- A sequence of bus writes, applied in order. -/
def applyWrites (s : RSState) (ws : List (Nat × Nat)) : RSState :=
  ws.foldl (fun s w => mem_write s w.1 w.2) s

/-- The Arduino-style lowercase-to-uppercase fold applied by the 8251 data
read path: c - a + A for ASCII a..z. -/
def toUpperByte (c : Nat) : Nat :=
  if 97 ≤ c ∧ c ≤ 122 then c - 97 + 65 else c

/-- Entries named . and .. are skipped by the directory-listing loop. -/
def isDotEntry (e : List Nat) : Bool := e == [46] || e == [46, 46]

/-- port_in of src/retroshield.c.  Returns the byte read and the updated
state (reads have side effects: they set uses_8251, consume stdin, advance
or close the SD file/directory handles).  The branch order mirrors the C
if/else chain: ACIA control 0x80, ACIA data 0x81, USART control 0x01,
USART data 0x00, SD status 0x11, SD data 0x12, default 0xFF. -/
def portIn (s : RSState) (port : Nat) : Nat × RSState :=
  let port := port % 256
  if port = 0x80 then
    -- ACIA status: TDRE always, RDRF when input available
    (if kbhit s then 0x02 ||| 0x01 else 0x02, s)
  else if port = 0x81 then
    match s.stdin with
    | c :: rest => (c % 256, { s with stdin := rest })
    | [] => (0, s)
  else if port = 0x01 then
    -- 8251 status: TxRDY+TxE+DSR, RxRDY when input available
    let s1 := { s with uses8251 := true }
    (if kbhit s1 then 0x85 ||| 0x02 else 0x85, s1)
  else if port = 0x00 then
    -- 8251 data: dequeue, fold lowercase to uppercase
    let s1 := { s with uses8251 := true }
    match s1.stdin with
    | c :: rest => (toUpperByte (c % 256), { s1 with stdin := rest })
    | [] => (0, s1)
  else if port = 0x11 then
    -- SD status: or in DATA_AVAILABLE when a file or directory is open
    (if s.sdFile.isSome || s.sdDir.isSome then s.sdStatus ||| 0x80 else s.sdStatus, s)
  else if port = 0x12 then
    -- SD data
    match s.sdFile with
    | some f =>
      if f.pos < f.data.length then
        (f.data.getD f.pos 0 % 256, { s with sdFile := some ⟨f.data, f.pos + 1⟩ })
      else
        -- fgetc returned EOF: close the file, drop back to READY
        (0, { s with sdFile := none, sdStatus := 1 })
    | none =>
      match s.sdDir with
      | some entries =>
        if s.sdDirEntryPos < s.sdDirEntry.length then
          (s.sdDirEntry.getD s.sdDirEntryPos 0 % 256,
           { s with sdDirEntryPos := s.sdDirEntryPos + 1 })
        else
          -- current entry exhausted: advance readdir past . and ..
          match entries.dropWhile isDotEntry with
          | e :: rest =>
            -- snprintf adds CR LF and truncates to the 63 usable bytes
            let entry := (e ++ [13, 10]).take 63
            (entry.getD 0 0 % 256,
             { s with sdDir := some rest, sdDirEntry := entry, sdDirEntryPos := 1 })
          | [] =>
            -- end of directory: closedir, drop back to READY
            (0, { s with sdDir := none, sdStatus := 1 })
      | none => (0, s)
  else (0xFF, s)

/-- fputc on the modelled FILE handle: pad with zeros up to the cursor if
it sits past the end, overwrite the byte at the cursor, advance. -/
def fputcFile (val : Nat) (f : SdFile) : SdFile :=
  let d := if f.pos ≤ f.data.length then f.data
           else f.data ++ List.replicate (f.pos - f.data.length) 0
  ⟨d.take f.pos ++ [val] ++ d.drop (f.pos + 1), f.pos + 1⟩

/-- The SD command dispatch (the SD_CMD_PORT switch of port_out in
src/retroshield.c).  env fixes the outcome of the filesystem calls. -/
def sdCommand (env : SdEnv) (s : RSState) (val : Nat) : RSState :=
  if val = 1 then
    -- OPEN_READ: close any existing file, fopen rb
    match env.openRead with
    | some d => { s with sdFile := some ⟨d, 0⟩, sdStatus := 1 }
    | none => { s with sdFile := none, sdStatus := 3 }
  else if val = 2 then
    -- CREATE: mkdir storage, fopen w+b (truncates to empty)
    if env.create then { s with sdFile := some ⟨[], 0⟩, sdStatus := 1 }
    else { s with sdFile := none, sdStatus := 3 }
  else if val = 3 then
    -- OPEN_APPEND: fopen r+b then fseek to the end
    match env.openAppend with
    | some d => { s with sdFile := some ⟨d, d.length⟩, sdStatus := 1 }
    | none => { s with sdFile := none, sdStatus := 3 }
  else if val = 4 then
    -- SEEK_START: error if no open file
    match s.sdFile with
    | some f => { s with sdFile := some ⟨f.data, 0⟩, sdStatus := 1 }
    | none => { s with sdStatus := 3 }
  else if val = 5 then
    -- CLOSE: always succeeds
    { s with sdFile := none, sdDir := none, sdStatus := 1 }
  else if val = 6 then
    -- DIR: close any existing iterator, mkdir storage, opendir; the entry
    -- buffer and its cursor are reset either way
    match env.dirEntries with
    | some es => { s with sdDir := some es, sdDirEntry := [], sdDirEntryPos := 0, sdStatus := 1 }
    | none => { s with sdDir := none, sdDirEntry := [], sdDirEntryPos := 0, sdStatus := 3 }
  else if val = 7 then
    -- OPEN_RW: fopen r+b, no truncation
    match env.openRW with
    | some d => { s with sdFile := some ⟨d, 0⟩, sdStatus := 1 }
    | none => { s with sdFile := none, sdStatus := 3 }
  else if val = 8 ∨ val = 9 then
    -- SEEK_BYTE / SEEK_16: fseek to the 16-bit seek register
    match s.sdFile with
    | some f => { s with sdFile := some ⟨f.data, s.sdSeekPos⟩, sdStatus := 1 }
    | none => { s with sdStatus := 3 }
  else s

/-- port_out of src/retroshield.c.  Branch order mirrors the C if/else
chain: ACIA control 0x80, ACIA data 0x81, USART data 0x00 (USART control
writes fall through, ignored), SD command 0x10, SD data 0x12, SD filename
0x13, SD seek low 0x14, SD seek high 0x15; everything else is ignored. -/
def portOut (env : SdEnv) (s : RSState) (port val : Nat) : RSState :=
  let port := port % 256
  let val := val % 256
  if port = 0x80 then { s with aciaControl := val }
  else if port = 0x81 then { s with stdout := s.stdout ++ [val] }
  else if port = 0x00 then { s with stdout := s.stdout ++ [val] }
  else if port = 0x10 then sdCommand env s val
  else if port = 0x12 then
    match s.sdFile with
    | some f => { s with sdFile := some (fputcFile val f) }
    | none => s
  else if port = 0x13 then
    if val = 0 then
      -- null terminator: finish the filename, reset the cursor
      { s with sdFilename := Function.update s.sdFilename s.sdFilenamePos 0,
               sdFilenamePos := 0 }
    else if s.sdFilenamePos < 255 then
      { s with sdFilename := Function.update s.sdFilename s.sdFilenamePos val,
               sdFilenamePos := s.sdFilenamePos + 1 }
    else s
  else if port = 0x14 then
    { s with sdSeekPos := (s.sdSeekPos &&& 0xFF00) ||| val }
  else if port = 0x15 then
    { s with sdSeekPos := (s.sdSeekPos &&& 0x00FF) ||| (val <<< 8) }
  else s

/-- A fixed environment in which every filesystem call fails. -/
def envNone : SdEnv := ⟨none, false, none, none, none⟩

/-- The failing SD commands: an open/create/append/rw/dir whose filesystem
call fails, or a seek (SEEK_START, SEEK_BYTE, SEEK_16) with no open
file. -/
def sdCmdFails (env : SdEnv) (s : RSState) (val : Nat) : Prop :=
  (val = 1 ∧ env.openRead = none) ∨ (val = 2 ∧ env.create = false)
  ∨ (val = 3 ∧ env.openAppend = none) ∨ (val = 6 ∧ env.dirEntries = none)
  ∨ (val = 7 ∧ env.openRW = none)
  ∨ ((val = 4 ∨ val = 8 ∨ val = 9) ∧ s.sdFile = none)

/-- The successful SD commands: a recognized command byte that does not
fail. -/
def sdCmdSucceeds (env : SdEnv) (s : RSState) (val : Nat) : Prop :=
  (1 ≤ val ∧ val ≤ 9) ∧ ¬ sdCmdFails env s val

/-! The host main-loop interrupt policy of src/retroshield.c (the loop body
after z80_step).  The CPU core is external, so one loop iteration is
modelled by what the host observes of it right after the step. -/

/-- What the host loop reads after one z80_step: the uses_8251 flag, kbhit,
and the iff1 / iff_delay fields of the CPU. -/
structure LoopObs where
  uses8251 : Bool
  kbhit : Bool
  iff1 : Bool
  iffDelay : Nat

/-- One iteration of the interrupt-policy tail of the main loop: returns
whether z80_gen_int(cpu, 0xFF) is called and the new int_pending latch.
Mirrors the two ifs after z80_step in main of src/retroshield.c. -/
def irqPoll (o : LoopObs) (pending : Bool) : Bool × Bool :=
  let fired := o.uses8251 && o.kbhit && o.iff1 && !pending && (o.iffDelay == 0)
  let pending1 := if fired then true else pending
  let pending2 := if !o.iff1 then false else pending1
  (fired, pending2)

/-- Number of z80_gen_int calls over a run of loop iterations, threading
the int_pending latch. -/
def irqFireCount : List LoopObs → Bool → Nat
  | [], _ => 0
  | o :: rest, pending =>
    (if (irqPoll o pending).1 then 1 else 0) + irqFireCount rest (irqPoll o pending).2

/-! The input ring buffer shared by src/retroshield_nc.c
(input_available / input_getchar / input_putchar) and
src/retroshield_tui.c (input_available / input_get / input_put):
a 256-slot ring with head/tail cursors, one slot left unused to
distinguish full from empty. -/

/-- RingBuf-buffer state: INPUT_BUF_SIZE = 256 slots, producer cursor head,
consumer cursor tail. -/
structure RingBuf where
  buf : Nat → Nat
  head : Nat
  tail : Nat

/-- input_available: the ring is nonempty. -/
def input_available (r : RingBuf) : Bool := r.head != r.tail

/-- input_get / input_getchar: dequeue at tail, or return 0 when empty. -/
def input_get (r : RingBuf) : Nat × RingBuf :=
  if r.head = r.tail then (0, r)
  else (r.buf r.tail, { r with tail := (r.tail + 1) % 256 })

/-- input_put / input_putchar: store at head unless the ring is full; a
full ring drops the new byte. -/
def input_put (c : Nat) (r : RingBuf) : RingBuf :=
  let next := (r.head + 1) % 256
  if next ≠ r.tail then { r with buf := Function.update r.buf r.head c, head := next }
  else r

/-- Number of queued bytes. -/
def ringSize (r : RingBuf) : Nat := (r.head + 256 - r.tail) % 256

/-- The n bytes of the ring starting at slot t (indices taken mod 256). -/
def contentsFrom (buf : Nat → Nat) : Nat → Nat → List Nat
  | _, 0 => []
  | t, n + 1 => buf (t % 256) :: contentsFrom buf (t + 1) n

/-- The queued bytes of the ring, oldest first. -/
def contents (r : RingBuf) : List Nat := contentsFrom r.buf r.tail (ringSize r)

/-- The cursors stay inside the 256-slot buffer. -/
def RingBufInv (r : RingBuf) : Prop := r.head < 256 ∧ r.tail < 256

/-- The zero-initialized ring of the C statics. -/
def emptyRing : RingBuf := ⟨fun _ => 0, 0, 0⟩

/-- Push a list of bytes in order. -/
def pushAll (cs : List Nat) (r : RingBuf) : RingBuf :=
  cs.foldl (fun r c => input_put c r) r

/-- Pop n bytes in order (an empty ring yields 0s). -/
def popList : Nat → RingBuf → List Nat
  | 0, _ => []
  | n + 1, r => (input_get r).1 :: popList n (input_get r).2

/-! The instruction-length computation of src/z80_disasm.c.  Only the
returned length is modelled; the mnemonic text written into buf plays no
part in the length and is omitted.  Every branch of the C decoder is kept,
with the same conditions, so the value returned here is the value the C
function returns. -/

/-- Memory access mem[(a) and 0xFFFF] on the 64 KiB byte array. -/
def rd8 (mem : Nat → Nat) (a : Nat) : Nat := mem (a % 65536) % 256

/-- Length returned by disasm_cb: 4 for the (IX+d)/(IY+d) forms, else 2
(note: the C returns 2 for DD CB with a register target, not 4). -/
def disasm_cb (mem : Nat → Nat) (addr : Nat) (ixiy : Bool) : Nat :=
  let op := rd8 mem (addr + if ixiy then 1 else 0)
  let z := op % 8
  if ixiy = true ∧ z = 6 then 4 else 2

/-- Length returned by disasm_ed: 4 for LD (nn),rp / LD rp,(nn)
(x = 1, z = 3), else 2 (all other branches, the block ops, and the
DB fallback all return 2). -/
def disasm_ed (mem : Nat → Nat) (addr : Nat) : Nat :=
  let op := rd8 mem addr
  let x := op / 64 % 4
  let z := op % 8
  if x = 1 then
    if z = 3 then 4 else 2
  else 2

/-- Length returned by the main-opcode section of z80_disasm (everything
after the prefix checks), for an opcode op with a DD/FD prefix flag ixiy
and the prefix length preLen.  The x/y/z/p/q decomposition, branch order
and returned constants mirror the C function; branches that only fall
through to the final DB return are folded into the else arms with the
same value. -/
def mainLen (ixiy : Bool) (preLen : Nat) (op : Nat) : Nat :=
  let x := op / 64 % 4
  let y := op / 8 % 8
  let z := op % 8
  let p := y / 2
  let q := y % 2
  if x = 0 then
    if z = 0 then
      if y = 0 then 1 + preLen          -- NOP
      else if y = 1 then 1 + preLen     -- EX AF
      else if y = 2 then 2 + preLen     -- DJNZ
      else if y = 3 then 2 + preLen     -- JR
      else 2 + preLen                   -- JR cc
    else if z = 1 then
      if q = 0 then 3 + preLen          -- LD rp,nn
      else 1 + preLen                   -- ADD HL,rp
    else if z = 2 then
      if y < 4 then 1 + preLen          -- LD (BC)/(DE) forms
      else 3 + preLen                   -- LD (nn) forms
    else if z = 3 then 1 + preLen       -- INC/DEC rp
    else if z = 4 then
      if ixiy = true ∧ y = 6 then 3     -- INC (IX+d)
      else 1 + preLen
    else if z = 5 then
      if ixiy = true ∧ y = 6 then 3     -- DEC (IX+d)
      else 1 + preLen
    else if z = 6 then
      if ixiy = true ∧ y = 6 then 4     -- LD (IX+d),n
      else 2 + preLen                   -- LD r,n
    else 1 + preLen                     -- rotates etc.
  else if x = 1 then
    if z = 6 ∧ y = 6 then 1 + preLen    -- HALT
    else if ixiy = true ∧ (y = 6 ∨ z = 6) then 3
    else 1 + preLen                     -- LD r,r
  else if x = 2 then
    if ixiy = true ∧ z = 6 then 3       -- alu (IX+d)
    else 1 + preLen                     -- alu r
  else
    if z = 0 then 1 + preLen            -- RET cc
    else if z = 1 then 1 + preLen       -- POP / RET / EXX / JP (HL) / LD SP,HL
    else if z = 2 then 3 + preLen       -- JP cc,nn
    else if z = 3 then
      if y = 0 then 3 + preLen          -- JP nn
      else if y = 2 then 2 + preLen     -- OUT (n),A
      else if y = 3 then 2 + preLen     -- IN A,(n)
      else 1 + preLen                   -- EX (SP) / EX DE / DI / EI / DB fall-through
    else if z = 4 then 3 + preLen       -- CALL cc,nn
    else if z = 5 then
      if q = 0 then 1 + preLen          -- PUSH
      else if p = 0 then 3 + preLen     -- CALL nn
      else 1 + preLen                   -- DD/ED/FD bytes: DB fall-through
    else if z = 6 then 2 + preLen       -- alu n
    else 1 + preLen                     -- RST

/-- Length returned by z80_disasm of src/z80_disasm.c.  addr0 is the
instruction address; a DD/FD prefix advances the address and re-reads the
opcode, then the CB and ED prefixes are checked and the main-opcode
section (mainLen) handles the rest. -/
def z80_disasm (mem : Nat → Nat) (addr0 : Nat) : Nat :=
  let op0 := rd8 mem addr0
  let ixiy : Bool := op0 == 0xDD || op0 == 0xFD
  let preLen := if ixiy then 1 else 0
  let addr := addr0 + preLen
  let op := rd8 mem addr
  if op = 0xCB then disasm_cb mem (addr + 1) ixiy
  else if op = 0xED then preLen + disasm_ed mem (addr + 1)
  else mainLen ixiy preLen op

/-- The address of the n-th instruction when disassembly starts at a and
repeatedly advances by the returned length. -/
def chain (mem : Nat → Nat) (a : Nat) : Nat → Nat
  | 0 => a
  | n + 1 => chain mem a n + z80_disasm mem (chain mem a n)

/-- A concrete memory image beginning DD ED 43: LD (nn),BC under a DD
prefix. -/
def cmem : Nat → Nat :=
  fun a => if a = 0 then 0xDD else if a = 1 then 0xED else if a = 2 then 0x43 else 0

/-! Helper lemmas. -/

/-- mem_write never changes the protected size. -/
theorem mem_write_romSize (s : RSState) (a v : Nat) :
    (mem_write s a v).romSize = s.romSize := by
  unfold mem_write; split <;> rfl

/-- mem_write cannot touch a protected (ROM) address. -/
theorem mem_write_protected (s : RSState) (a b v : Nat) (h : a % 65536 < s.romSize) :
    (mem_write s b v).memory (a % 65536) = s.memory (a % 65536) := by
  unfold mem_write
  split
  · rename_i hb
    simp only
    rw [Function.update_noteq (by omega)]
  · rfl

/-- Write sequences cannot touch a protected (ROM) address, and never
change the protected size. -/
theorem applyWrites_protected (ws : List (Nat × Nat)) (s : RSState) (a : Nat)
    (h : a % 65536 < s.romSize) :
    (applyWrites s ws).memory (a % 65536) = s.memory (a % 65536)
    ∧ (applyWrites s ws).romSize = s.romSize := by
  induction ws generalizing s with
  | nil => exact ⟨rfl, rfl⟩
  | cons w ws ih =>
    have hstep : applyWrites s (w :: ws) = applyWrites (mem_write s w.1 w.2) ws := rfl
    have h' : a % 65536 < (mem_write s w.1 w.2).romSize := by
      rw [mem_write_romSize]; exact h
    obtain ⟨ih1, ih2⟩ := ih (mem_write s w.1 w.2) h'
    refine ⟨?_, ?_⟩
    · rw [hstep, ih1, mem_write_protected s a w.1 w.2 h]
    · rw [hstep, ih2, mem_write_romSize]

/-- C1: ROM write protection.  A bus write below rom_size leaves memory
unchanged, a write at or above rom_size stores the byte, reads are
unconditional, and a protected address keeps its originally loaded byte
across any sequence of bus writes. -/
theorem rom_write_protect (s : RSState) (addr v : Nat) (ws : List (Nat × Nat)) :
    (addr % 65536 < s.romSize → (mem_write s addr v).memory = s.memory)
    ∧ (s.romSize ≤ addr % 65536 → (mem_write s addr v).memory (addr % 65536) = v % 256)
    ∧ mem_read s addr = s.memory (addr % 65536)
    ∧ (addr % 65536 < s.romSize → mem_read (applyWrites s ws) addr = mem_read s addr) := by
  refine ⟨?_, ?_, rfl, ?_⟩
  · intro h
    unfold mem_write
    rw [if_neg (by omega)]
  · intro h
    unfold mem_write
    rw [if_pos (by omega)]
    simp only
    rw [Function.update_same]
  · intro h
    unfold mem_read
    exact (applyWrites_protected ws s addr h).1

/-- Witness for rom_write_protect at concrete inputs. -/
theorem rom_write_protect_w :
    ((0 : Nat) % 65536 < initState.romSize
      ∧ (mem_write initState 0 7).memory = initState.memory)
    ∧ (initState.romSize ≤ 0x3000 % 65536
      ∧ (mem_write initState 0x3000 7).memory (0x3000 % 65536) = 7 % 256)
    ∧ mem_read (applyWrites initState [(0, 9)]) 0 = mem_read initState 0 :=
  ⟨⟨by decide, (rom_write_protect initState 0 7 []).1 (by decide)⟩,
   ⟨by decide, (rom_write_protect initState 0x3000 7 []).2.1 (by decide)⟩,
   (rom_write_protect initState 0 9 [(0, 9)]).2.2.2 (by decide)⟩

/-- A run of loop iterations in which the CPU keeps interrupts enabled and
the latch is already set asserts no further interrupt. -/
theorem irqFireCount_latched (obs : List LoopObs)
    (h : ∀ o ∈ obs, o.iff1 = true) : irqFireCount obs true = 0 := by
  induction obs with
  | nil => rfl
  | cons o rest ih =>
    have hi : o.iff1 = true := h o (List.mem_cons_self o rest)
    have hr := ih fun o2 hm => h o2 (List.mem_cons_of_mem o hm)
    simp [irqFireCount, irqPoll, hi, hr]

/-- C2: host IRQ policy.  z80_gen_int is called iff uses_8251, input
available, iff1, the latch clear, and iff_delay zero; the call sets the
latch; the latch is cleared exactly when iff1 is observed false; and once
the latch is set, no further interrupt fires while the CPU keeps iff1
true (at most one interrupt per input byte until acceptance). -/
theorem irq_policy (o : LoopObs) (p : Bool) :
    ((irqPoll o p).1 = true ↔
      (o.uses8251 = true ∧ o.kbhit = true ∧ o.iff1 = true ∧ p = false ∧ o.iffDelay = 0))
    ∧ ((irqPoll o p).1 = true → (irqPoll o p).2 = true)
    ∧ (o.iff1 = false → (irqPoll o p).2 = false)
    ∧ (p = true → (irqPoll o p).2 = false → o.iff1 = false)
    ∧ (∀ obs : List LoopObs, (∀ o2 ∈ obs, o2.iff1 = true) → irqFireCount obs true = 0) := by
  obtain ⟨u, k, i, d⟩ := o
  refine ⟨?_, ?_, ?_, ?_, fun obs h => irqFireCount_latched obs h⟩ <;>
    cases u <;> cases k <;> cases i <;> cases p <;>
      simp [irqPoll, Nat.beq_eq_true_eq]

/-- Witness for irq_policy at concrete inputs. -/
theorem irq_policy_w :
    (irqPoll ⟨true, true, true, 0⟩ false).1 = true
    ∧ irqFireCount [⟨true, true, true, 0⟩, ⟨true, true, true, 0⟩] true = 0 :=
  ⟨(irq_policy ⟨true, true, true, 0⟩ false).1.mpr (by decide),
   (irq_policy ⟨true, true, true, 0⟩ false).2.2.2.2
     [⟨true, true, true, 0⟩, ⟨true, true, true, 0⟩] (by decide)⟩

/-- C4: 8251 case folding is input-only.  A data-port read with input
available returns the dequeued byte with ASCII a..z folded to A..Z, a read
with no input returns 0, and a data-port write emits the byte unchanged. -/
theorem usart_case_fold (s : RSState) (env : SdEnv) (c v : Nat) (rest : List Nat) :
    (s.stdin = c :: rest → c < 256 →
      (portIn s 0).1 = (if 97 ≤ c ∧ c ≤ 122 then c - 32 else c)
      ∧ (portIn s 0).2.stdin = rest)
    ∧ (s.stdin = [] → (portIn s 0).1 = 0)
    ∧ (v < 256 → (portOut env s 0 v).stdout = s.stdout ++ [v]) := by
  refine ⟨?_, ?_, ?_⟩
  · intro h hc
    have hc' : c % 256 = c := Nat.mod_eq_of_lt hc
    constructor
    · simp [portIn, h, hc', toUpperByte]
      split_ifs <;> omega
    · simp [portIn, h]
  · intro h
    simp [portIn, h]
  · intro hv
    have hv' : v % 256 = v := Nat.mod_eq_of_lt hv
    show s.stdout ++ [v % 256] = s.stdout ++ [v]
    rw [hv']

/-- Witness for usart_case_fold at concrete inputs. -/
theorem usart_case_fold_w :
    (portIn { initState with stdin := [97] } 0).1 = (if 97 ≤ 97 ∧ 97 ≤ 122 then 97 - 32 else 97)
    ∧ (portOut envNone initState 0 97).stdout = initState.stdout ++ [97] :=
  ⟨((usart_case_fold { initState with stdin := [97] } envNone 97 97 []).1 rfl (by decide)).1,
   (usart_case_fold initState envNone 97 97 []).2.2 (by decide)⟩

/-- C5 (amended): uses_8251 is set by the first read of either 8251 port;
port writes never set it — in particular a host-side OUT to port 0x00 from
the initial state leaves it false. -/
theorem uses8251_read_only (s : RSState) (env : SdEnv) (v : Nat) :
    (portIn s 0).2.uses8251 = true
    ∧ (portIn s 1).2.uses8251 = true
    ∧ (portOut env s 0 v).uses8251 = s.uses8251
    ∧ (portOut env s 1 v).uses8251 = s.uses8251
    ∧ (portOut env initState 0 0x61).uses8251 = false := by
  refine ⟨?_, ?_, ?_, ?_, rfl⟩
  · cases h : s.stdin <;> simp [portIn, h]
  · simp [portIn]
  · simp [portOut]
  · simp [portOut]

/-- C5 counterexample: the claim says the first write of an 8251 port sets
uses_8251, but the write handler for port 0x00 (the OUT (0x00),A of the
ROM bytes 3E 61 D3 00 76) leaves uses_8251 false. -/
theorem uses8251_write_cx : (portOut envNone initState 0 0x61).uses8251 = false := rfl

/-- C9: unmapped ports.  A read of any port outside the documented map
returns 0xFF with the state untouched, and a write to any such port
changes nothing. -/
theorem unmapped_ports (s : RSState) (env : SdEnv) (port v : Nat)
    (hp : port < 256)
    (hm : port ∉ ([0x00, 0x01, 0x10, 0x11, 0x12, 0x13, 0x14, 0x15, 0x80, 0x81] : List Nat)) :
    portIn s port = (0xFF, s) ∧ portOut env s port v = s := by
  simp only [List.mem_cons, List.not_mem_nil, or_false, not_or] at hm
  obtain ⟨h0, h1, h10, h11, h12, h13, h14, h15, h80, h81⟩ := hm
  have hmod : port % 256 = port := Nat.mod_eq_of_lt hp
  constructor
  · simp only [portIn, hmod]
    rw [if_neg h80, if_neg h81, if_neg h1, if_neg h0, if_neg h11, if_neg h12]
  · simp only [portOut, hmod]
    rw [if_neg h80, if_neg h81, if_neg h0, if_neg h10, if_neg h12, if_neg h13,
        if_neg h14, if_neg h15]

/-- Witness for unmapped_ports at the concrete port 0x42. -/
theorem unmapped_ports_w :
    portIn initState 0x42 = (0xFF, initState) ∧ portOut envNone initState 0x42 7 = initState :=
  unmapped_ports initState envNone 0x42 7 (by decide) (by decide)

/-- C10: filename-buffer bound.  With the cursor in range, a write to the
SD filename port keeps it in range: a zero byte stores the terminator at
the cursor and resets it, a non-zero byte with room stores at the cursor
and advances, and a non-zero byte with 255 bytes accumulated is discarded
(state unchanged). -/
theorem fname_cursor_bounds (s : RSState) (env : SdEnv) (v : Nat)
    (hv : v < 256) (hpos : s.sdFilenamePos ≤ 255) :
    (portOut env s 0x13 v).sdFilenamePos ≤ 255
    ∧ s.sdFilenamePos < 256
    ∧ (v = 0 → portOut env s 0x13 v =
        { s with sdFilename := Function.update s.sdFilename s.sdFilenamePos 0,
                 sdFilenamePos := 0 })
    ∧ (v ≠ 0 → s.sdFilenamePos < 255 → portOut env s 0x13 v =
        { s with sdFilename := Function.update s.sdFilename s.sdFilenamePos v,
                 sdFilenamePos := s.sdFilenamePos + 1 })
    ∧ (v ≠ 0 → s.sdFilenamePos = 255 → portOut env s 0x13 v = s) := by
  have hv' : v % 256 = v := Nat.mod_eq_of_lt hv
  refine ⟨?_, by omega, ?_, ?_, ?_⟩
  · simp only [portOut, hv']
    norm_num
    split_ifs <;> (try simp) <;> omega
  · intro h0
    subst h0
    simp [portOut]
  · intro hnz hroom
    simp only [portOut, hv']
    norm_num
    rw [if_neg hnz, if_pos hroom]
  · intro hnz hfull
    simp only [portOut, hv']
    norm_num
    rw [if_neg hnz, if_neg (by omega)]

/-- Witness for fname_cursor_bounds at concrete inputs. -/
theorem fname_cursor_bounds_w :
    (portOut envNone initState 0x13 65).sdFilenamePos ≤ 255
    ∧ (65 ≠ 0 → initState.sdFilenamePos < 255 → portOut envNone initState 0x13 65 =
        { initState with
            sdFilename := Function.update initState.sdFilename initState.sdFilenamePos 65,
            sdFilenamePos := initState.sdFilenamePos + 1 }) :=
  ⟨(fname_cursor_bounds initState envNone 65 (by decide) (by decide)).1,
   (fname_cursor_bounds initState envNone 65 (by decide) (by decide)).2.2.2.1⟩

/-- C6: SD errors are in-band and cleared by success.  A failing command
written to port 0x10 sets the status byte to ERROR|READY = 0x03, and any
successful command (from any prior state, in particular one holding the
ERROR bit) sets the status byte to READY = 0x01. -/
theorem sd_error_inband (env : SdEnv) (s : RSState) (val : Nat) (hv : val < 256) :
    (sdCmdFails env s val → (portOut env s 0x10 val).sdStatus = 3)
    ∧ (sdCmdSucceeds env s val → (portOut env s 0x10 val).sdStatus = 1) := by
  have hv' : val % 256 = val := Nat.mod_eq_of_lt hv
  have hout : portOut env s 0x10 val = sdCommand env s val := by
    simp [portOut, hv']
  rw [hout]
  constructor
  · rintro (⟨h, he⟩ | ⟨h, he⟩ | ⟨h, he⟩ | ⟨h, he⟩ | ⟨h, he⟩ | ⟨h, he⟩)
    · subst h; simp [sdCommand, he]
    · subst h; simp [sdCommand, he]
    · subst h; simp [sdCommand, he]
    · subst h; simp [sdCommand, he]
    · subst h; simp [sdCommand, he]
    · rcases h with h | h | h <;> subst h <;> simp [sdCommand, he]
  · rintro ⟨⟨hlo, hhi⟩, hnf⟩
    interval_cases val
    · have h1 : env.openRead ≠ none := fun h => hnf (Or.inl ⟨rfl, h⟩)
      obtain ⟨d, hd⟩ := Option.ne_none_iff_exists'.mp h1
      simp [sdCommand, hd]
    · have h1 : env.create = true := by
        cases h : env.create
        · exact absurd (Or.inr (Or.inl ⟨rfl, h⟩)) hnf
        · rfl
      simp [sdCommand, h1]
    · have h1 : env.openAppend ≠ none :=
        fun h => hnf (Or.inr (Or.inr (Or.inl ⟨rfl, h⟩)))
      obtain ⟨d, hd⟩ := Option.ne_none_iff_exists'.mp h1
      simp [sdCommand, hd]
    · have h1 : s.sdFile ≠ none :=
        fun h => hnf (Or.inr (Or.inr (Or.inr (Or.inr (Or.inr ⟨Or.inl rfl, h⟩)))))
      obtain ⟨f, hf⟩ := Option.ne_none_iff_exists'.mp h1
      simp [sdCommand, hf]
    · simp [sdCommand]
    · have h1 : env.dirEntries ≠ none :=
        fun h => hnf (Or.inr (Or.inr (Or.inr (Or.inl ⟨rfl, h⟩))))
      obtain ⟨es, hes⟩ := Option.ne_none_iff_exists'.mp h1
      simp [sdCommand, hes]
    · have h1 : env.openRW ≠ none :=
        fun h => hnf (Or.inr (Or.inr (Or.inr (Or.inr (Or.inl ⟨rfl, h⟩)))))
      obtain ⟨d, hd⟩ := Option.ne_none_iff_exists'.mp h1
      simp [sdCommand, hd]
    · have h1 : s.sdFile ≠ none :=
        fun h => hnf (Or.inr (Or.inr (Or.inr (Or.inr (Or.inr ⟨Or.inr (Or.inl rfl), h⟩)))))
      obtain ⟨f, hf⟩ := Option.ne_none_iff_exists'.mp h1
      simp [sdCommand, hf]
    · have h1 : s.sdFile ≠ none :=
        fun h => hnf (Or.inr (Or.inr (Or.inr (Or.inr (Or.inr ⟨Or.inr (Or.inr rfl), h⟩)))))
      obtain ⟨f, hf⟩ := Option.ne_none_iff_exists'.mp h1
      simp [sdCommand, hf]

/-- Witness for sd_error_inband: a failing OPEN_READ then, from that
error, a successful OPEN_READ. -/
theorem sd_error_inband_w :
    (portOut envNone initState 0x10 1).sdStatus = 3
    ∧ (portOut ⟨some [], false, none, none, none⟩ { initState with sdStatus := 3 } 0x10 1).sdStatus = 1 :=
  ⟨(sd_error_inband envNone initState 1 (by decide)).1 (Or.inl ⟨rfl, rfl⟩),
   (sd_error_inband ⟨some [], false, none, none, none⟩ { initState with sdStatus := 3 } 1
       (by decide)).2 ⟨⟨by decide, by decide⟩, by intro h; simp [sdCmdFails] at h⟩⟩

/-- C7: SD data and DATA_AVAILABLE coupling.  A status read has bit 0x80
set iff a file or a directory listing is open; a data read with an open
file at end-of-file returns 0 and closes the handle (so subsequent status
reads show DATA_AVAILABLE clear); and a data read with neither handle open
returns 0. -/
theorem sd_data_available (s : RSState) (f : SdFile) :
    (s.sdStatus = 1 ∨ s.sdStatus = 3 →
      (Nat.testBit (portIn s 0x11).1 7 = true ↔ (s.sdFile.isSome || s.sdDir.isSome) = true))
    ∧ (s.sdFile = some f → f.data.length ≤ f.pos →
        (portIn s 0x12).1 = 0
        ∧ (portIn s 0x12).2.sdFile = none
        ∧ (s.sdDir = none → Nat.testBit (portIn (portIn s 0x12).2 0x11).1 7 = false))
    ∧ (s.sdFile = none → s.sdDir = none → (portIn s 0x12).1 = 0) := by
  refine ⟨?_, ?_, ?_⟩
  · intro hst
    cases hb : (s.sdFile.isSome || s.sdDir.isSome) <;>
      rcases hst with h | h <;> simp [portIn, hb, h] <;> decide
  · intro hf hEOF
    have hred : portIn s 0x12 = (0, { s with sdFile := none, sdStatus := 1 }) := by
      simp only [portIn]
      norm_num
      rw [hf]
      simp only
      rw [if_neg (by omega)]
    rw [hred]
    refine ⟨rfl, rfl, ?_⟩
    intro hd
    simp [portIn, hd]
    decide
  · intro hf hd
    simp [portIn, hf, hd]

/-- Witness for sd_data_available: a one-byte file whose cursor sits at
end-of-file. -/
theorem sd_data_available_w :
    (portIn { initState with sdFile := some ⟨[72], 1⟩ } 0x12).1 = 0
    ∧ (portIn { initState with sdFile := some ⟨[72], 1⟩ } 0x12).2.sdFile = none
    ∧ (Nat.testBit (portIn initState 0x11).1 7 = true
        ↔ (initState.sdFile.isSome || initState.sdDir.isSome) = true) :=
  ⟨((sd_data_available { initState with sdFile := some ⟨[72], 1⟩ } ⟨[72], 1⟩).2.1
      rfl (by decide)).1,
   ((sd_data_available { initState with sdFile := some ⟨[72], 1⟩ } ⟨[72], 1⟩).2.1
      rfl (by decide)).2.1,
   (sd_data_available initState ⟨[72], 1⟩).1 (Or.inl rfl)⟩

/-! Ring-buffer lemmas. -/

/-- contentsFrom produces exactly n bytes. -/
theorem contentsFrom_length (buf : Nat → Nat) (t n : Nat) :
    (contentsFrom buf t n).length = n := by
  induction n generalizing t with
  | zero => rfl
  | succ n ih => simp [contentsFrom, ih]

/-- contentsFrom only depends on the start slot mod 256. -/
theorem contentsFrom_congr (buf : Nat → Nat) (n : Nat) :
    ∀ t u, t % 256 = u % 256 → contentsFrom buf t n = contentsFrom buf u n := by
  induction n with
  | zero => intro t u _; rfl
  | succ n ih =>
    intro t u h
    simp only [contentsFrom]
    rw [h, ih (t + 1) (u + 1) (by omega)]

/-- Unfolding contentsFrom at the far end. -/
theorem contentsFrom_snoc (buf : Nat → Nat) (n : Nat) :
    ∀ t, contentsFrom buf t (n + 1) = contentsFrom buf t n ++ [buf ((t + n) % 256)] := by
  induction n with
  | zero => intro t; simp [contentsFrom]
  | succ n ih =>
    intro t
    have harg : t + 1 + n = t + (n + 1) := by omega
    rw [show contentsFrom buf t (n + 1 + 1) = buf (t % 256) :: contentsFrom buf (t + 1) (n + 1)
          from rfl]
    rw [ih (t + 1), harg]
    rw [show contentsFrom buf t (n + 1) = buf (t % 256) :: contentsFrom buf (t + 1) n from rfl]
    simp

/-- Updating a slot outside the window leaves contentsFrom unchanged. -/
theorem contentsFrom_update (buf : Nat → Nat) (h c n : Nat) :
    ∀ t, (∀ i < n, (t + i) % 256 ≠ h) →
      contentsFrom (Function.update buf h c) t n = contentsFrom buf t n := by
  induction n with
  | zero => intro t _; rfl
  | succ n ih =>
    intro t hne
    have h0 : t % 256 ≠ h := by
      have := hne 0 (by omega)
      rwa [Nat.add_zero] at this
    simp only [contentsFrom]
    rw [Function.update_noteq h0, ih (t + 1) ?_]
    intro i hi
    have := hne (i + 1) (by omega)
    rwa [show t + (i + 1) = t + 1 + i by omega] at this

/-- A push onto a full ring (255 bytes queued) drops the byte and changes
nothing. -/
theorem input_put_full (r : RingBuf) (c : Nat) (hinv : RingBufInv r)
    (h : ringSize r = 255) : input_put c r = r := by
  obtain ⟨hh, ht⟩ := hinv
  have heq : (r.head + 1) % 256 = r.tail := by
    unfold ringSize at h; omega
  simp only [input_put]
  rw [if_neg (not_not_intro heq)]

/-- A push onto a ring with room appends the byte. -/
theorem input_put_room (r : RingBuf) (c : Nat) (hinv : RingBufInv r)
    (h : ringSize r < 255) :
    contents (input_put c r) = contents r ++ [c] ∧ RingBufInv (input_put c r) := by
  obtain ⟨hh, ht⟩ := hinv
  have hne : (r.head + 1) % 256 ≠ r.tail := by
    unfold ringSize at h; omega
  have hput : input_put c r =
      { r with buf := Function.update r.buf r.head c, head := (r.head + 1) % 256 } := by
    simp only [input_put]
    rw [if_pos hne]
  rw [hput]
  constructor
  · show contentsFrom (Function.update r.buf r.head c) r.tail
        (((r.head + 1) % 256 + 256 - r.tail) % 256) = _
    rw [show ((r.head + 1) % 256 + 256 - r.tail) % 256
          = (r.head + 256 - r.tail) % 256 + 1 from by omega]
    rw [contentsFrom_snoc]
    have hforall : ∀ i < (r.head + 256 - r.tail) % 256, (r.tail + i) % 256 ≠ r.head := by
      intro i hi
      omega
    rw [contentsFrom_update r.buf r.head c ((r.head + 256 - r.tail) % 256) r.tail hforall]
    rw [show (r.tail + (r.head + 256 - r.tail) % 256) % 256 = r.head from by omega,
        Function.update_same]
    rfl
  · exact ⟨Nat.mod_lt _ (by omega), ht⟩

/-- A pop returns the oldest queued byte (0 when the ring is empty) and
removes it. -/
theorem input_get_spec (r : RingBuf) (hinv : RingBufInv r) :
    (input_get r).1 = (contents r).headD 0
    ∧ contents (input_get r).2 = (contents r).tail
    ∧ RingBufInv (input_get r).2 := by
  obtain ⟨hh, ht⟩ := hinv
  by_cases hemp : r.head = r.tail
  · have hsz : ringSize r = 0 := by unfold ringSize; omega
    have hc : contents r = [] := by
      unfold contents
      rw [hsz]
      rfl
    have hget : input_get r = (0, r) := by
      unfold input_get
      rw [if_pos hemp]
    rw [hget, hc]
    exact ⟨rfl, rfl, hh, ht⟩
  · have hszpos : 1 ≤ ringSize r := by unfold ringSize; omega
    have hget : input_get r = (r.buf r.tail, { r with tail := (r.tail + 1) % 256 }) := by
      unfold input_get
      rw [if_neg hemp]
    have hdecomp : contents r
        = r.buf r.tail :: contentsFrom r.buf (r.tail + 1) (ringSize r - 1) := by
      obtain ⟨m, hm⟩ : ∃ m, ringSize r = m + 1 := ⟨ringSize r - 1, by omega⟩
      unfold contents
      rw [hm]
      simp only [contentsFrom, Nat.add_sub_cancel]
      rw [Nat.mod_eq_of_lt ht]
    have hsz2 : ringSize { r with tail := (r.tail + 1) % 256 } = ringSize r - 1 := by
      show (r.head + 256 - (r.tail + 1) % 256) % 256 = (r.head + 256 - r.tail) % 256 - 1
      omega
    refine ⟨?_, ?_, ?_⟩
    · rw [hget, hdecomp]
      rfl
    · rw [hget, hdecomp]
      simp only [List.tail_cons]
      unfold contents
      rw [hsz2]
      exact contentsFrom_congr r.buf (ringSize r - 1) ((r.tail + 1) % 256) (r.tail + 1) (by omega)
    · rw [hget]
      exact ⟨hh, Nat.mod_lt _ (by omega)⟩

/-- C8 (amended): the input buffer is a bounded FIFO of capacity 255 (a
256-slot ring with one slot kept free): input_available reports a
nonempty queue, a push appends the byte when fewer than 255 bytes are
queued, a push onto the full queue drops the byte and changes nothing,
a pop returns the oldest byte (0 when empty) and removes it, and the
cursors stay inside the 256-slot buffer. -/
theorem ring_fifo (r : RingBuf) (c : Nat) (hinv : RingBufInv r) :
    (input_available r = true ↔ contents r ≠ [])
    ∧ contents (input_put c r) = (if ringSize r < 255 then contents r ++ [c] else contents r)
    ∧ (ringSize r = 255 → input_put c r = r)
    ∧ (input_get r).1 = (contents r).headD 0
    ∧ contents (input_get r).2 = (contents r).tail
    ∧ RingBufInv (input_put c r) ∧ RingBufInv (input_get r).2 := by
  obtain ⟨hh, ht⟩ := hinv
  have hlen : (contents r).length = ringSize r := contentsFrom_length _ _ _
  refine ⟨?_, ?_, fun h => input_put_full r c ⟨hh, ht⟩ h,
          (input_get_spec r ⟨hh, ht⟩).1, (input_get_spec r ⟨hh, ht⟩).2.1, ?_,
          (input_get_spec r ⟨hh, ht⟩).2.2⟩
  · rw [input_available, bne_iff_ne]
    constructor
    · intro hne hnil
      rw [hnil] at hlen
      simp only [List.length_nil] at hlen
      unfold ringSize at hlen
      omega
    · intro hne heq
      apply hne
      apply List.length_eq_zero.mp
      rw [hlen]
      unfold ringSize
      omega
  · by_cases hroom : ringSize r < 255
    · rw [if_pos hroom]
      exact (input_put_room r c ⟨hh, ht⟩ hroom).1
    · rw [if_neg hroom]
      have h255 : ringSize r = 255 := by unfold ringSize at hroom ⊢; omega
      rw [input_put_full r c ⟨hh, ht⟩ h255]
  · by_cases hroom : ringSize r < 255
    · exact (input_put_room r c ⟨hh, ht⟩ hroom).2
    · have h255 : ringSize r = 255 := by unfold ringSize at hroom ⊢; omega
      rw [input_put_full r c ⟨hh, ht⟩ h255]
      exact ⟨hh, ht⟩

/-- Witness for ring_fifo at the empty ring. -/
theorem ring_fifo_w :
    contents (input_put 7 emptyRing)
      = (if ringSize emptyRing < 255 then contents emptyRing ++ [7] else contents emptyRing)
    ∧ (input_get emptyRing).1 = (contents emptyRing).headD 0 :=
  ⟨(ring_fifo emptyRing 7 (by constructor <;> decide)).2.1,
   (ring_fifo emptyRing 7 (by constructor <;> decide)).2.2.2.1⟩

/-- Pushing a list of bytes appends them in order until the ring is full
(255 bytes); the rest are dropped. -/
theorem pushAll_contents (cs : List Nat) :
    ∀ r, RingBufInv r →
      contents (pushAll cs r) = contents r ++ cs.take (255 - (contents r).length)
      ∧ RingBufInv (pushAll cs r) := by
  induction cs with
  | nil => intro r hinv; exact ⟨by simp [pushAll], hinv⟩
  | cons c cs ih =>
    intro r hinv
    have hlen : (contents r).length = ringSize r := contentsFrom_length _ _ _
    have hsz : ringSize r < 256 := by
      obtain ⟨hh, ht⟩ := hinv
      unfold ringSize
      omega
    have hstep : pushAll (c :: cs) r = pushAll cs (input_put c r) := rfl
    by_cases hroom : ringSize r < 255
    · obtain ⟨hput, hinv2⟩ := input_put_room r c hinv hroom
      obtain ⟨ih1, ih2⟩ := ih (input_put c r) hinv2
      refine ⟨?_, by rw [hstep]; exact ih2⟩
      rw [hstep, ih1, hput]
      rw [show 255 - (contents r).length = (255 - (contents r).length - 1) + 1 from by omega]
      rw [List.take_succ_cons]
      simp only [List.length_append, List.length_singleton]
      rw [show 255 - ((contents r).length + 1) = 255 - (contents r).length - 1 from by omega]
      simp
    · have h255 : ringSize r = 255 := by omega
      have hdrop : input_put c r = r := input_put_full r c hinv h255
      obtain ⟨ih1, ih2⟩ := ih r hinv
      refine ⟨?_, by rw [hstep, hdrop]; exact ih2⟩
      rw [hstep, hdrop, ih1]
      rw [show 255 - (contents r).length = 0 from by omega]
      simp

/-- C8 counterexample: the ring cannot hold 256 bytes.  Pushing the bytes
0..255 into the empty ring in order leaves a queue holding only the first
255 of them: the 256th byte was dropped, so the FIFO does not hold at
least 256 bytes. -/
theorem ring_capacity_cx :
    contents (pushAll (List.range 256) emptyRing) = List.range 255
    ∧ contents (pushAll (List.range 256) emptyRing) ≠ List.range 256 := by
  have hinv : RingBufInv emptyRing := by constructor <;> decide
  have h := (pushAll_contents (List.range 256) emptyRing hinv).1
  rw [show contents emptyRing = [] from rfl] at h
  simp only [List.nil_append, List.length_nil, Nat.sub_zero, List.take_range] at h
  constructor
  · rw [h]
    rfl
  · rw [h]
    intro hc
    have := congrArg List.length hc
    simp at this

/-- C3 counterexample: on the byte sequence DD ED 43 the decoder returns
length 5 (prefix byte plus the 4-byte ED form), exceeding the claimed
maximum of 4. -/
theorem disasm_len_gt4_cx :
    z80_disasm cmem 0 = 5 ∧ ¬ z80_disasm cmem 0 ≤ 4 := by
  constructor <;> decide

set_option maxRecDepth 4000 in
/-- The main-opcode section always returns a length between 1 and 4,
for either prefix length. -/
theorem mainLen_bounds :
    ∀ b : Bool, ∀ pre ≤ 1, ∀ op < 256,
      1 ≤ mainLen b pre op ∧ mainLen b pre op ≤ 4 := by
  decide

/-- Every decode has a length between 1 and 5. -/
theorem z80_disasm_bounds (m : Nat → Nat) (b : Nat) :
    1 ≤ z80_disasm m b ∧ z80_disasm m b ≤ 5 := by
  have hcb : ∀ (a : Nat) (ix : Bool), 1 ≤ disasm_cb m a ix ∧ disasm_cb m a ix ≤ 4 := by
    intro a ix
    simp only [disasm_cb]
    split_ifs <;> omega
  have hed : ∀ a : Nat, 2 ≤ disasm_ed m a ∧ disasm_ed m a ≤ 4 := by
    intro a
    simp only [disasm_ed]
    split_ifs <;> omega
  have hlt : ∀ a : Nat, rd8 m a < 256 := fun a => Nat.mod_lt _ (by omega)
  simp only [z80_disasm]
  split_ifs with hpre hcb1 hed1 hcb2 hed2
  · exact (by have := hcb (b + 1 + 1) (rd8 m b == 221 || rd8 m b == 253); omega)
  · exact (by have := hed (b + 1 + 1); omega)
  · exact (by
      have := mainLen_bounds (rd8 m b == 221 || rd8 m b == 253) 1 (by omega)
        (rd8 m (b + 1)) (hlt (b + 1))
      omega)
  · exact (by have := hcb (b + 0 + 1) (rd8 m b == 221 || rd8 m b == 253); omega)
  · exact (by have := hed (b + 0 + 1); omega)
  · exact (by
      have := mainLen_bounds (rd8 m b == 221 || rd8 m b == 253) 0 (by omega)
        (rd8 m (b + 0)) (hlt (b + 0))
      omega)

/-- C3 (amended): the decoder returns a length of at least 1 and at most
5 (5 exactly for a DD/FD prefix in front of a 4-byte ED instruction, the
only decode exceeding 4), and since every length is positive, repeatedly
advancing by the returned length partitions the addresses from the start
point onward without gaps or overlaps: every address at or beyond the
start lies in exactly one decoded instruction window. -/
theorem z80_disasm_len_partition (mem : Nat → Nat) (a k : Nat) :
    (1 ≤ z80_disasm mem a ∧ z80_disasm mem a ≤ 5)
    ∧ (∃! n, chain mem a n ≤ a + k ∧ a + k < chain mem a (n + 1)) := by
  refine ⟨z80_disasm_bounds mem a, ?_⟩
  have hstep : ∀ n, chain mem a n < chain mem a (n + 1) := by
    intro n
    have := (z80_disasm_bounds mem (chain mem a n)).1
    show chain mem a n < chain mem a n + z80_disasm mem (chain mem a n)
    omega
  have hmono : StrictMono (chain mem a) := strictMono_nat_of_lt_succ hstep
  have hlb : ∀ n, a + n ≤ chain mem a n := by
    intro n
    induction n with
    | zero => simp [chain]
    | succ n ih =>
      have := (z80_disasm_bounds mem (chain mem a n)).1
      show a + (n + 1) ≤ chain mem a n + z80_disasm mem (chain mem a n)
      omega
  have hex : ∃ n, a + k < chain mem a n := ⟨k + 1, by have := hlb (k + 1); omega⟩
  have hm := Nat.find_spec hex
  have hm0 : Nat.find hex ≠ 0 := by
    intro h0
    rw [h0] at hm
    simp [chain] at hm
  obtain ⟨n, hn⟩ : ∃ n, Nat.find hex = n + 1 := ⟨Nat.find hex - 1, by omega⟩
  have hmin : ¬ (a + k < chain mem a n) := Nat.find_min hex (by omega)
  have hm' : a + k < chain mem a (n + 1) := by rw [← hn]; exact hm
  refine ⟨n, ⟨by omega, hm'⟩, ?_⟩
  rintro n' ⟨hn'1, hn'2⟩
  by_contra hne
  rcases Nat.lt_or_ge n' n with hlt | hge
  · have : chain mem a (n' + 1) ≤ chain mem a n := hmono.monotone (by omega)
    omega
  · have : chain mem a (n + 1) ≤ chain mem a n' := hmono.monotone (by omega)
    omega
